import Mathlib

/-!
Shallow embedding of the `rit` mini-git object store (src/src/main.rs).

Bytes are modelled as `Nat` values (each `< 256` where the source produces
genuine bytes); byte strings are `List Nat`.  The on-disk object store is an
association list from path bytes to file-content bytes, newest binding first
(`fs::write` overwrites = prepend).  Zlib compression/decompression is an
external library, so the store operations are parametrised by an arbitrary
`compress : List Nat → List Nat` (resp. `decompress : List Nat → Option (List Nat)`)
function.  Fallible I/O injected by the environment (a failing `File::create`)
is modelled by a predicate `bad` on paths; `Option.none` models a propagated
`Err` in `write_tree`, while the dedicated `panicked` constructors model a
process abort through `.unwrap()` in `cat_file` / `ls_tree`.
-/

namespace Rit

/-- ASCII bytes of a Lean string literal.  All strings formatted by the source
(`"blob {}\0"`, modes, names) are ASCII, where UTF-8 coincides with the
character codes. -/
def asciiBytes (s : String) : List Nat := s.data.map Char.toNat

/-- Decimal rendering of a natural number as ASCII digit bytes, as produced by
`format!("{}", n)`; fuel-structured so that it reduces by `decide`. -/
def natDecimalAux : Nat → Nat → List Nat
  | 0, _ => []
  | fuel + 1, n => if n < 10 then [48 + n] else natDecimalAux fuel (n / 10) ++ [48 + n % 10]

def natDecimal (n : Nat) : List Nat := natDecimalAux (n + 1) n

/-- Canonical framing `"<kind> <payload-length>\0<payload>"` built by
`format!("{kind} {}\0", payload.len())` followed by the payload bytes. -/
def frame (kind : String) (payload : List Nat) : List Nat :=
  asciiBytes kind ++ 32 :: natDecimal payload.length ++ 0 :: payload

/-- Blob framing `"blob <len>\0" ++ data`, as built inline in `hash_object`
and in the file branch of `write_tree`. -/
def encodeBlob (data : List Nat) : List Nat := frame "blob" data

/-! ## SHA-1 (the `sha1` crate dependency, per FIPS 180-4) -/

def u32 (n : Nat) : Nat := n % 4294967296

def rotl (k n : Nat) : Nat :=
  let m := u32 n
  u32 ((m <<< k) ||| (m >>> (32 - k)))

def shaF (i b c d : Nat) : Nat :=
  if i < 20 then (b &&& c) ||| (u32 (Nat.xor b 4294967295) &&& d)
  else if i < 40 then Nat.xor (Nat.xor b c) d
  else if i < 60 then (b &&& c) ||| ((b &&& d) ||| (c &&& d))
  else Nat.xor (Nat.xor b c) d

def shaK (i : Nat) : Nat :=
  if i < 20 then 1518500249
  else if i < 40 then 1859775393
  else if i < 60 then 2400959708
  else 3395469782

/-- Big-endian 32-bit words from a byte list (16 words per 64-byte block). -/
def toWords : List Nat → List Nat
  | b0 :: b1 :: b2 :: b3 :: rest =>
      (b0 * 16777216 + b1 * 65536 + b2 * 256 + b3) :: toWords rest
  | _ => []

def scheduleStep (acc : List Nat) (_i : Nat) : List Nat :=
  acc ++ [rotl 1 (Nat.xor
    (Nat.xor (acc.getD (acc.length - 3) 0) (acc.getD (acc.length - 8) 0))
    (Nat.xor (acc.getD (acc.length - 14) 0) (acc.getD (acc.length - 16) 0)))]

/-- Extend the 16 message words to the 80-word schedule. -/
def schedule (ws : List Nat) : List Nat := (List.range 64).foldl scheduleStep ws

abbrev Sha1State := Nat × Nat × Nat × Nat × Nat

def roundStep : Sha1State → Nat × Nat → Sha1State
  | (a, b, c, d, e), (i, w) =>
      (u32 (rotl 5 a + shaF i b c d + e + shaK i + w), a, rotl 30 b, c, d)

def processChunk (h : Sha1State) (chunk : List Nat) : Sha1State :=
  let ws := schedule (toWords chunk)
  let r := ws.enum.foldl roundStep h
  (u32 (h.1 + r.1), u32 (h.2.1 + r.2.1), u32 (h.2.2.1 + r.2.2.1),
   u32 (h.2.2.2.1 + r.2.2.2.1), u32 (h.2.2.2.2 + r.2.2.2.2))

def lenBytes (n : Nat) : List Nat :=
  [(n >>> 56) % 256, (n >>> 48) % 256, (n >>> 40) % 256, (n >>> 32) % 256,
   (n >>> 24) % 256, (n >>> 16) % 256, (n >>> 8) % 256, n % 256]

/-- Merkle–Damgård padding: `0x80`, zeros to 56 mod 64, 8-byte bit length. -/
def pad (msg : List Nat) : List Nat :=
  msg ++ 128 :: List.replicate ((119 - msg.length % 64) % 64) 0 ++ lenBytes (8 * msg.length)

/-- Process the padded message 64 bytes at a time (fuel-structured on the
remaining length so that it reduces by `decide`). -/
def processBlocks : Nat → Sha1State → List Nat → Sha1State
  | 0, h, _ => h
  | _ + 1, h, [] => h
  | fuel + 1, h, l => processBlocks fuel (processChunk h (l.take 64)) (l.drop 64)

def wordBytes (w : Nat) : List Nat :=
  [(w >>> 24) % 256, (w >>> 16) % 256, (w >>> 8) % 256, w % 256]

def sha1Init : Sha1State := (1732584193, 4023233417, 2562383102, 271733878, 3285377520)

/-- SHA-1 digest (20 bytes) of a byte list. -/
def sha1 (msg : List Nat) : List Nat :=
  let st := processBlocks (pad msg).length sha1Init (pad msg)
  wordBytes st.1 ++ wordBytes st.2.1 ++ wordBytes st.2.2.1 ++
    wordBytes st.2.2.2.1 ++ wordBytes st.2.2.2.2

/-! ## Hex rendering (`format!("{:x}", oid)` / `hex::encode`) -/

def hexDigit (n : Nat) : Nat := if n < 10 then 48 + n else 87 + n

def hexEncode : List Nat → List Nat
  | [] => []
  | b :: r => hexDigit (b / 16) :: hexDigit (b % 16) :: hexEncode r

/-- Hex digit value; total, with junk value 0 off the hex alphabet (the
source's `hex::decode(..).expect(..)` is only ever applied to hex strings the
program itself rendered, so the panic branch is unreachable). -/
def hexVal (c : Nat) : Nat :=
  if 48 ≤ c ∧ c ≤ 57 then c - 48
  else if 97 ≤ c ∧ c ≤ 102 then c - 87
  else if 65 ≤ c ∧ c ≤ 70 then c - 55
  else 0

/-- `hex_to_raw` from the source: hex string back to raw bytes. -/
def hex_to_raw : List Nat → List Nat
  | c1 :: c2 :: r => (16 * hexVal c1 + hexVal c2) :: hex_to_raw r
  | _ => []

/-! ## Object store -/

/-- The on-disk object store: path bytes ↦ content bytes, newest first. -/
abbrev Store := List (List Nat × List Nat)

def storeLookup : Store → List Nat → Option (List Nat)
  | [], _ => none
  | (q, d) :: r, p => if q = p then some d else storeLookup r p

/-- `".git/objects/" ++ hex[..2] ++ "/" ++ hex[2..]`, the shard path derived
from a hex fingerprint. -/
def objPath (hex : List Nat) : List Nat :=
  asciiBytes ".git/objects/" ++ hex.take 2 ++ 47 :: hex.drop 2

/-- `write_object` from the source.  `bad` injects environment write failures
(a failing `File::create`); `none` models the propagated `io::Error`.  If the
object file already exists the body is skipped entirely. -/
def write_object (bad : List Nat → Bool) (compress : List Nat → List Nat)
    (hash : List Nat) (data : List Nat) (store : Store) : Option Store :=
  let path := objPath hash
  if (storeLookup store path).isSome then some store
  else if bad path then none
  else some ((path, compress data) :: store)

/-- `hash_object` from the source: frame the file bytes as a blob, SHA-1 it,
and—only when `write` is set—compress and `fs::write` the object
unconditionally (no existence check; `fs::write` overwrites).  Returns the
printed hex fingerprint and the resulting store. -/
def hash_object (write : Bool) (data : List Nat) (compress : List Nat → List Nat)
    (store : Store) : List Nat × Store :=
  let stored := encodeBlob data
  let hex := hexEncode (sha1 stored)
  if write then (hex, (objPath hex, compress stored) :: store) else (hex, store)

/-! ## Decoding (`cat_file` and `ls_tree`) -/

/-- `iter().position(|&b| b == x)`. -/
def posOf (x : Nat) : List Nat → Option Nat
  | [] => none
  | b :: r => if b = x then some 0 else (posOf x r).map (· + 1)

/-- ASCII whitespace bytes (the `char::is_whitespace` cases that can occur in
the ASCII headers the program ever formats or stores). -/
def isWs (b : Nat) : Bool := b = 32 || b = 9 || b = 10 || b = 11 || b = 12 || b = 13

/-- First whitespace-separated token of (ASCII) header bytes, i.e.
`split_whitespace().next().unwrap_or("")`. -/
def firstToken (l : List Nat) : List Nat :=
  (l.dropWhile isWs).takeWhile (fun b => ! isWs b)

/-- Result of `cat_file`'s decode stage on the decompressed bytes. -/
inductive CatDecode where
  | blobContent (content : List Nat)
  | unsupported (objType : List Nat)
  | silent
  deriving DecidableEq, Repr

/-- The decode stage of `cat_file`: find the first NUL (if none, the function
falls through printing nothing), split off the header, take its first
whitespace token as the kind; a `blob` prints the content, any other kind hits
the `eprintln!("Unsupported object type: ..")` branch. -/
def catFileDecode (d : List Nat) : CatDecode :=
  match posOf 0 d with
  | none => .silent
  | some i =>
      let objType := firstToken (d.take i)
      if objType = asciiBytes "blob" then .blobContent (d.drop (i + 1))
      else .unsupported objType

inductive CatRun where
  | panicked
  | decoded (r : CatDecode)
  deriving DecidableEq, Repr

/-- The full `cat_file` operation: read the object file at the sharded path
(`.unwrap()` aborts when it does not exist), decompress (`.unwrap()` aborts on
failure), then decode.  The `pretty_print` flag only selects stdout
formatting, which the spec excludes as glue, so it is not modelled. -/
def cat_file (decompress : List Nat → Option (List Nat)) (store : Store)
    (sha : List Nat) : CatRun :=
  match storeLookup store (objPath sha) with
  | none => .panicked
  | some compressed =>
      match decompress compressed with
      | none => .panicked
      | some d => .decoded (catFileDecode d)

/-- A tree entry at the byte level: mode bytes, name bytes, raw 20-byte
fingerprint. -/
structure Entry where
  mode : List Nat
  name : List Nat
  sha : List Nat
  deriving DecidableEq, Repr

/-- The entry-parsing loop of `ls_tree`, fuel-structured (fuel `≥` list length
suffices; each iteration consumes at least 21 bytes).  `none` models a panic:
a missing entry NUL (`position(..).unwrap()`), a header with no space
(`parts.next().unwrap()` for the filename), or fewer than 20 bytes left for
the raw fingerprint (slice out of range). -/
def parseEntriesAux : Nat → List Nat → Option (List Entry)
  | _, [] => some []
  | 0, _ :: _ => none
  | fuel + 1, l =>
      match posOf 0 l with
      | none => none
      | some i =>
          let header := l.take i
          match posOf 32 header with
          | none => none
          | some j =>
              if l.length < i + 21 then none
              else
                match parseEntriesAux fuel (l.drop (i + 21)) with
                | none => none
                | some es =>
                    some (⟨header.take j, header.drop (j + 1), (l.drop (i + 1)).take 20⟩ :: es)

def parseEntries (l : List Nat) : Option (List Entry) := parseEntriesAux l.length l

/-- The decode stage of `ls_tree`: strip everything up to and including the
first NUL (the header — the kind tag is never inspected), then parse the rest
as tree entries.  `none` models a panic. -/
def lsTreeDecode (d : List Nat) : Option (List Entry) :=
  match posOf 0 d with
  | none => none
  | some i => parseEntries (d.drop (i + 1))

inductive LsRun where
  | panicked
  | listed (es : List Entry)
  deriving DecidableEq, Repr

/-- The full `ls_tree` operation: read the object file (`.unwrap()` aborts when
absent), decompress (`.unwrap()`), strip the header, parse the entries.  The
`name_only` flag only selects stdout formatting and is not modelled. -/
def ls_tree (decompress : List Nat → Option (List Nat)) (store : Store)
    (sha : List Nat) : LsRun :=
  match storeLookup store (objPath sha) with
  | none => .panicked
  | some compressed =>
      match decompress compressed with
      | none => .panicked
      | some d =>
          match lsTreeDecode d with
          | none => .panicked
          | some es => .listed es

/-! ## Tree encoding (the byte buffer built by `write_tree`) -/

/-- One entry's bytes: `"<mode> <name>\0"` followed by the raw fingerprint. -/
def entryBytes (e : Entry) : List Nat := e.mode ++ 32 :: e.name ++ 0 :: e.sha

def treePayload : List Entry → List Nat
  | [] => []
  | e :: r => entryBytes e ++ treePayload r

/-- Tree framing `"tree <payload-byte-length>\0" ++ payload`. -/
def encodeTree (es : List Entry) : List Nat := frame "tree" (treePayload es)

/-! ## `write_tree` -/

/-- A directory child as `write_tree` observes it: a readable regular file, a
regular file whose `fs::read` fails (environment I/O fault), a node that is
neither `is_dir()` nor `is_file()` (broken symlink, special file), or a
subdirectory. -/
inductive FsNode where
  | file (data : List Nat)
  | badFile
  | special
  | dir (children : List (String × FsNode))

/-- The `for entry in fs::read_dir(path)?` loop of `write_tree`, returning the
accumulated entry bytes and the store.  For a subdirectory the recursive
`write_tree` call is inlined: children first, then the subtree's own tree
object.  `none` models a propagated `Err` (`?`). -/
def writeChildren (bad : List Nat → Bool) (compress : List Nat → List Nat) :
    List (String × FsNode) → Store → Option (List Nat × Store)
  | [], store => some ([], store)
  | (name, node) :: rest, store =>
      if name = ".git" then writeChildren bad compress rest store
      else
        match node with
        | .dir cs =>
            match writeChildren bad compress cs store with
            | none => none
            | some (childEntries, st0) =>
                let header := frame "tree" childEntries
                let hex := hexEncode (sha1 header)
                match write_object bad compress hex header st0 with
                | none => none
                | some st1 =>
                    match writeChildren bad compress rest st1 with
                    | none => none
                    | some (es, st2) =>
                        some ((asciiBytes ("40000 " ++ name) ++ 0 :: hex_to_raw hex) ++ es, st2)
        | .file data =>
            let stored := encodeBlob data
            let hex := hexEncode (sha1 stored)
            match write_object bad compress hex stored store with
            | none => none
            | some st1 =>
                match writeChildren bad compress rest st1 with
                | none => none
                | some (es, st2) =>
                    some ((asciiBytes ("100644 " ++ name) ++ 0 :: sha1 stored) ++ es, st2)
        | .badFile => none
        | .special => writeChildren bad compress rest store
  termination_by cs => sizeOf cs

/-- `write_tree` from the source: process the children, frame the accumulated
entry bytes as a tree, hash, `write_object`, and return the hex fingerprint.
On a non-directory `fs::read_dir` fails (`?`). -/
def write_tree (bad : List Nat → Bool) (compress : List Nat → List Nat)
    (fs : FsNode) (store : Store) : Option (List Nat × Store) :=
  match fs with
  | .dir cs =>
      match writeChildren bad compress cs store with
      | none => none
      | some (entries, st0) =>
          let header := frame "tree" entries
          let hex := hexEncode (sha1 header)
          match write_object bad compress hex header st0 with
          | none => none
          | some st1 => some (hex, st1)
  | _ => none

/-! ## Helper lemmas -/

theorem natDecimalAux_digits :
    ∀ fuel n x, x ∈ natDecimalAux fuel n → 48 ≤ x ∧ x ≤ 57 := by
  intro fuel
  induction fuel with
  | zero => intro n x hx; simp [natDecimalAux] at hx
  | succ f ih =>
      intro n x hx
      by_cases h : n < 10
      · simp [natDecimalAux, h] at hx
        omega
      · simp [natDecimalAux, h] at hx
        rcases hx with hx | hx
        · exact ih _ _ hx
        · omega

theorem natDecimal_digits (n x : Nat) (hx : x ∈ natDecimal n) : 48 ≤ x ∧ x ≤ 57 :=
  natDecimalAux_digits _ _ _ hx

theorem posOf_append (h t : List Nat) (b : Nat) (hb : b ∉ h) :
    posOf b (h ++ b :: t) = some h.length := by
  induction h with
  | nil => simp [posOf]
  | cons a h' ih =>
      simp only [List.mem_cons, not_or] at hb
      simp [posOf, Ne.symm hb.1, ih hb.2]

theorem drop_append_cons (h t : List Nat) (b : Nat) :
    (h ++ b :: t).drop (h.length + 1) = t := by
  rw [show h ++ b :: t = (h ++ [b]) ++ t by simp]
  exact List.drop_left' (by simp)

theorem frame_eq (kind : String) (p : List Nat) :
    frame kind p = (asciiBytes kind ++ 32 :: natDecimal p.length) ++ 0 :: p := by
  simp [frame]

/-- The framing header contains no NUL byte whenever the kind tag does not. -/
theorem frame_header_no_nul (kind : String) (p : List Nat)
    (hk : 0 ∉ asciiBytes kind) : 0 ∉ asciiBytes kind ++ 32 :: natDecimal p.length := by
  intro hmem
  rcases List.mem_append.mp hmem with hmem | hmem
  · exact hk hmem
  · rcases List.mem_cons.mp hmem with hmem | hmem
    · omega
    · have := natDecimal_digits _ _ hmem
      omega

theorem lowerHexDigits_lemma : ∀ n < 16, (48 ≤ hexDigit n ∧ hexDigit n ≤ 57) ∨
    (97 ≤ hexDigit n ∧ hexDigit n ≤ 102) := by decide

theorem hexEncode_length (l : List Nat) : (hexEncode l).length = 2 * l.length := by
  induction l with
  | nil => simp [hexEncode]
  | cons b r ih => simp [hexEncode, ih]; omega

/-- A lowercase hexadecimal digit character code. -/
def isLowerHex (c : Nat) : Prop := (48 ≤ c ∧ c ≤ 57) ∨ (97 ≤ c ∧ c ≤ 102)

theorem hexEncode_mem (l : List Nat) (hl : ∀ b ∈ l, b < 256) :
    ∀ x ∈ hexEncode l, isLowerHex x := by
  induction l with
  | nil => simp [hexEncode]
  | cons b r ih =>
      intro x hx
      have hb : b < 256 := hl b (by simp)
      simp only [hexEncode, List.mem_cons] at hx
      rcases hx with hx | hx | hx
      · subst hx; exact lowerHexDigits_lemma (b / 16) (by omega)
      · subst hx; exact lowerHexDigits_lemma (b % 16) (by omega)
      · exact ih (fun y hy => hl y (by simp [hy])) x hx

theorem sha1_length (msg : List Nat) : (sha1 msg).length = 20 := by
  simp [sha1, wordBytes]

theorem sha1_bytes_lt (msg : List Nat) : ∀ x ∈ sha1 msg, x < 256 := by
  intro x hx
  simp [sha1, wordBytes] at hx
  rcases hx with hx | hx | hx | hx | hx <;>
    rcases hx with hx | hx | hx | hx <;> omega

theorem takeWhile_append_stop (P : Nat → Bool) (a c : List Nat) (b : Nat)
    (ha : ∀ x ∈ a, P x = true) (hb : P b = false) :
    (a ++ b :: c).takeWhile P = a := by
  induction a with
  | nil => simp [List.takeWhile_cons, hb]
  | cons x a' ih =>
      simp only [List.cons_append, List.takeWhile_cons, ha x (by simp)]
      simp [ih (fun y hy => ha y (by simp [hy]))]

theorem firstToken_blob (rest : List Nat) :
    firstToken (asciiBytes "blob" ++ 32 :: rest) = asciiBytes "blob" := by
  have hb : asciiBytes "blob" = [98, 108, 111, 98] := by decide
  rw [firstToken, hb]
  have hdw : List.dropWhile isWs ([98, 108, 111, 98] ++ 32 :: rest)
      = [98, 108, 111, 98] ++ 32 :: rest := by
    simp [List.dropWhile_cons, isWs]
  rw [hdw]
  exact takeWhile_append_stop _ _ _ _ (by decide) (by decide)

/-- A tree entry that satisfies the data-model invariants of the spec (§3):
mode and name are NUL-free, the mode contains no space, and the raw
fingerprint is exactly 20 bytes. -/
def validEntry (e : Entry) : Prop :=
  0 ∉ e.mode ∧ 32 ∉ e.mode ∧ 0 ∉ e.name ∧ e.sha.length = 20

theorem entryBytes_shape (e : Entry) (rest : List Nat) :
    entryBytes e ++ rest = (e.mode ++ 32 :: e.name) ++ 0 :: (e.sha ++ rest) := by
  simp [entryBytes]

theorem parse_step (mode name sha rest : List Nat) (fuel : Nat)
    (hm0 : 0 ∉ mode) (hm32 : 32 ∉ mode) (hn0 : 0 ∉ name) (hs : sha.length = 20) :
    parseEntriesAux (fuel + 1) ((mode ++ 32 :: name) ++ 0 :: (sha ++ rest)) =
      match parseEntriesAux fuel rest with
      | none => none
      | some es => some (⟨mode, name, sha⟩ :: es) := by
  have hhead : 0 ∉ mode ++ 32 :: name := by
    intro hmem
    rcases List.mem_append.mp hmem with h | h
    · exact hm0 h
    · rcases List.mem_cons.mp h with h | h
      · omega
      · exact hn0 h
  have hcond : ¬ (((mode ++ 32 :: name) ++ 0 :: (sha ++ rest)).length
      < (mode ++ 32 :: name).length + 21) := by
    simp only [List.length_append, List.length_cons, hs]
    omega
  have hdrop21 : ((mode ++ 32 :: name) ++ 0 :: (sha ++ rest)).drop
      ((mode ++ 32 :: name).length + 21) = rest := by
    have h1 : (mode ++ 32 :: name).length + 21
        = (((mode ++ 32 :: name) ++ [0]) ++ sha).length := by
      simp only [List.length_append, List.length_cons, List.length_nil, hs]
    have h2 : (mode ++ 32 :: name) ++ 0 :: (sha ++ rest)
        = (((mode ++ 32 :: name) ++ [0]) ++ sha) ++ rest := by simp
    rw [h1, h2]
    exact List.drop_left _ _
  obtain ⟨hd, tl, hcons⟩ : ∃ hd tl,
      (mode ++ 32 :: name) ++ 0 :: (sha ++ rest) = hd :: tl := by
    rcases mode with _ | ⟨a, m⟩ <;> exact ⟨_, _, rfl⟩
  rw [hcons, parseEntriesAux, ← hcons]
  · rw [posOf_append _ _ _ hhead]
    simp only [List.take_left, drop_append_cons, posOf_append mode name 32 hm32,
      if_neg hcond, hdrop21, List.take_left' hs]
  · simp

theorem parseEntriesAux_roundtrip :
    ∀ (E : List Entry) (fuel : Nat), (∀ e ∈ E, validEntry e) →
      (treePayload E).length ≤ fuel → parseEntriesAux fuel (treePayload E) = some E := by
  intro E
  induction E with
  | nil => intro fuel _ _; cases fuel <;> simp [treePayload, parseEntriesAux]
  | cons e E' ih =>
      intro fuel hv hfuel
      obtain ⟨hm0, hm32, hn0, hs20⟩ := hv e (by simp)
      have hshape : treePayload (e :: E')
          = (e.mode ++ 32 :: e.name) ++ 0 :: (e.sha ++ treePayload E') := by
        rw [treePayload, entryBytes_shape]
      have hlen : (treePayload (e :: E')).length
          = e.mode.length + 1 + e.name.length + 1 + 20 + (treePayload E').length := by
        rw [hshape]
        simp only [List.length_append, List.length_cons, hs20]
        omega
      obtain ⟨f, rfl⟩ : ∃ f, fuel = f + 1 := ⟨fuel - 1, by omega⟩
      rw [hshape, parse_step _ _ _ _ _ hm0 hm32 hn0 hs20]
      rw [ih f (fun x hx => hv x (by simp [hx])) (by omega)]

theorem parseEntries_roundtrip (E : List Entry) (hv : ∀ e ∈ E, validEntry e) :
    parseEntries (treePayload E) = some E :=
  parseEntriesAux_roundtrip E _ hv le_rfl

theorem writeChildren_nil (bad : List Nat → Bool) (c : List Nat → List Nat) (s : Store) :
    writeChildren bad c [] s = some ([], s) := by
  rw [writeChildren.eq_def]

theorem writeChildren_git (bad : List Nat → Bool) (c : List Nat → List Nat)
    (node : FsNode) (rest : List (String × FsNode)) (s : Store) :
    writeChildren bad c ((".git", node) :: rest) s = writeChildren bad c rest s := by
  rw [writeChildren.eq_def]
  simp

theorem writeChildren_special (bad : List Nat → Bool) (c : List Nat → List Nat)
    (n : String) (rest : List (String × FsNode)) (s : Store) :
    writeChildren bad c ((n, .special) :: rest) s = writeChildren bad c rest s := by
  rw [writeChildren.eq_def]
  by_cases hg : n = ".git" <;> simp [hg]

theorem writeChildren_badFile (bad : List Nat → Bool) (c : List Nat → List Nat)
    (n : String) (rest : List (String × FsNode)) (s : Store) (h : n ≠ ".git") :
    writeChildren bad c ((n, .badFile) :: rest) s = none := by
  rw [writeChildren.eq_def]
  simp [h]

theorem writeChildren_file_step (bad : List Nat → Bool) (c : List Nat → List Nat)
    (n : String) (data : List Nat) (rest : List (String × FsNode)) (s : Store)
    (h : n ≠ ".git") :
    writeChildren bad c ((n, .file data) :: rest) s =
      match write_object bad c (hexEncode (sha1 (encodeBlob data))) (encodeBlob data) s with
      | none => none
      | some st1 =>
          match writeChildren bad c rest st1 with
          | none => none
          | some (es, st2) =>
              some ((asciiBytes ("100644 " ++ n) ++ 0 :: sha1 (encodeBlob data)) ++ es, st2) := by
  rw [writeChildren.eq_def]
  simp [h]

theorem writeChildren_dir_step (bad : List Nat → Bool) (c : List Nat → List Nat)
    (n : String) (cs rest : List (String × FsNode)) (s : Store) (h : n ≠ ".git") :
    writeChildren bad c ((n, .dir cs) :: rest) s =
      match writeChildren bad c cs s with
      | none => none
      | some (ce, st0) =>
          match write_object bad c (hexEncode (sha1 (frame "tree" ce))) (frame "tree" ce) st0 with
          | none => none
          | some st1 =>
              match writeChildren bad c rest st1 with
              | none => none
              | some (es, st2) =>
                  some ((asciiBytes ("40000 " ++ n)
                    ++ 0 :: hex_to_raw (hexEncode (sha1 (frame "tree" ce)))) ++ es, st2) := by
  rw [writeChildren.eq_def]
  simp [h]

theorem writeChildren_file_writeFail (bad : List Nat → Bool) (c : List Nat → List Nat)
    (n : String) (data : List Nat) (rest : List (String × FsNode)) (s : Store)
    (h : n ≠ ".git")
    (hw : write_object bad c (hexEncode (sha1 (encodeBlob data))) (encodeBlob data) s = none) :
    writeChildren bad c ((n, .file data) :: rest) s = none := by
  rw [writeChildren_file_step bad c n data rest s h, hw]

theorem writeChildren_dir_err (bad : List Nat → Bool) (c : List Nat → List Nat)
    (n : String) (cs rest : List (String × FsNode)) (s : Store) (h : n ≠ ".git")
    (hcs : writeChildren bad c cs s = none) :
    writeChildren bad c ((n, .dir cs) :: rest) s = none := by
  rw [writeChildren_dir_step bad c n cs rest s h, hcs]

theorem writeChildren_append (bad : List Nat → Bool) (c : List Nat → List Nat) :
    ∀ (a b : List (String × FsNode)) (s : Store),
      writeChildren bad c (a ++ b) s =
        match writeChildren bad c a s with
        | none => none
        | some (es, st) =>
            match writeChildren bad c b st with
            | none => none
            | some (es', st') => some (es ++ es', st') := by
  intro a
  induction a with
  | nil =>
      intro b s
      rcases h : writeChildren bad c b s with _ | ⟨es, st⟩ <;>
        simp [writeChildren_nil, h]
  | cons hd a' ih =>
      intro b s
      obtain ⟨name, node⟩ := hd
      by_cases hg : name = ".git"
      · subst hg
        simp only [List.cons_append, writeChildren_git]
        exact ih b s
      · cases node with
        | badFile =>
            simp only [List.cons_append, writeChildren_badFile bad c _ _ _ hg]
        | special =>
            simp only [List.cons_append, writeChildren_special]
            exact ih b s
        | file data =>
            simp only [List.cons_append, writeChildren_file_step bad c name data _ _ hg]
            rcases hw : write_object bad c (hexEncode (sha1 (encodeBlob data)))
                (encodeBlob data) s with _ | st1 <;> simp only [hw]
            rw [ih b st1]
            rcases h1 : writeChildren bad c a' st1 with _ | ⟨es1, st2⟩ <;> simp only [h1]
            rcases h2 : writeChildren bad c b st2 with _ | ⟨es2, st3⟩ <;>
              simp [h2, List.append_assoc]
        | dir cs =>
            simp only [List.cons_append, writeChildren_dir_step bad c name cs _ _ hg]
            rcases hcs : writeChildren bad c cs s with _ | ⟨ce, st0⟩ <;> simp only [hcs]
            rcases hw : write_object bad c (hexEncode (sha1 (frame "tree" ce)))
                (frame "tree" ce) st0 with _ | st1 <;> simp only [hw]
            rw [ih b st1]
            rcases h1 : writeChildren bad c a' st1 with _ | ⟨es1, st2⟩ <;> simp only [h1]
            rcases h2 : writeChildren bad c b st2 with _ | ⟨es2, st3⟩ <;>
              simp [h2, List.append_assoc]

/-! ## Claims -/

/-- C1: the fingerprint operation is a deterministic pure function of the
framed bytes: `hash_object` returns exactly the hex rendering of the SHA-1
digest of the framing `"blob <len>\x00<payload>"` (whether or not it writes),
that rendering has 40 characters, all of them lowercase hex digits, and
byte-identical payloads always fingerprint identically. -/
theorem hash_object_content_addressing :
    (∀ (w : Bool) (d : List Nat) (c : List Nat → List Nat) (s : Store),
        (hash_object w d c s).1 = hexEncode (sha1 (encodeBlob d))) ∧
    (∀ d : List Nat, (hexEncode (sha1 (encodeBlob d))).length = 40) ∧
    (∀ (d : List Nat) (x : Nat), x ∈ hexEncode (sha1 (encodeBlob d)) → isLowerHex x) ∧
    (∀ b1 b2 : List Nat, b1 = b2 →
        hexEncode (sha1 (encodeBlob b1)) = hexEncode (sha1 (encodeBlob b2))) := by
  refine ⟨?_, ?_, ?_, ?_⟩
  · intro w d c s
    cases w <;> simp [hash_object]
  · intro d
    rw [hexEncode_length, sha1_length]
  · intro d x hx
    exact hexEncode_mem _ (sha1_bytes_lt _) x hx
  · intro b1 b2 h
    rw [h]

set_option maxRecDepth 100000 in
theorem hash_object_content_addressing_witness :
    isLowerHex 101 ∧
    hexEncode (sha1 (encodeBlob [104, 105])) = hexEncode (sha1 (encodeBlob [104, 105])) :=
  ⟨hash_object_content_addressing.2.2.1 [] 101 (by decide),
   hash_object_content_addressing.2.2.2 [104, 105] [104, 105] rfl⟩

/-- C2: encode/decode round-trip.  Decoding the blob framing of any payload
`p` through `cat_file`'s decode stage recognizes the `blob` kind and yields
exactly `p`; and for every entry list satisfying the data-model invariants,
encoding it as a tree (mode, space, name, NUL, raw 20-byte fingerprint per
entry, behind the `"tree <len>\x00"` header) and decoding through `ls_tree`'s
parser yields the same entries in the same order. -/
theorem codec_round_trip :
    (∀ p : List Nat, catFileDecode (encodeBlob p) = .blobContent p) ∧
    (∀ E : List Entry, (∀ e ∈ E, validEntry e) → lsTreeDecode (encodeTree E) = some E) := by
  constructor
  · intro p
    have hH := frame_header_no_nul "blob" p (by decide)
    simp only [encodeBlob, catFileDecode, frame_eq, posOf_append _ _ _ hH,
      List.take_left, drop_append_cons, firstToken_blob]
    simp
  · intro E hv
    have hH := frame_header_no_nul "tree" (treePayload E) (by decide)
    simp only [encodeTree, lsTreeDecode, frame_eq, posOf_append _ _ _ hH, drop_append_cons]
    exact parseEntries_roundtrip E hv

theorem codec_round_trip_witness :
    lsTreeDecode (encodeTree [⟨asciiBytes "100644", asciiBytes "a", List.replicate 20 7⟩])
      = some [⟨asciiBytes "100644", asciiBytes "a", List.replicate 20 7⟩] :=
  codec_round_trip.2 _ (by
    intro e he
    rw [List.mem_singleton] at he
    subst he
    simp only [validEntry]
    refine ⟨by decide, by decide, by decide, by decide⟩)

/-- C3 (amended): `write_object` — the write path used by tree building for
both blobs and trees — is a no-op when an object already exists at the
fingerprint's path: the store is returned unchanged, regardless of the
compression function or any injected write fault.  (The `hash_object` write
path does not share this property; see the counterexample.) -/
theorem write_object_skips_existing (bad : List Nat → Bool) (c : List Nat → List Nat)
    (hash data : List Nat) (store : Store)
    (h : (storeLookup store (objPath hash)).isSome) :
    write_object bad c hash data store = some store := by
  simp [write_object, h]

theorem write_object_skips_existing_witness :
    write_object (fun _ => true) id (asciiBytes "aabb") [1, 2]
        [(objPath (asciiBytes "aabb"), [9])] = some [(objPath (asciiBytes "aabb"), [9])] :=
  write_object_skips_existing _ _ _ _ _ (by decide)

set_option maxRecDepth 100000 in
/-- C3 counterexample: `hash_object` with `write = true` rewrites the object
file even when an object already exists at the fingerprint's path (`fs::write`
is unconditional, with no existence check), so the pre-existing content at the
empty blob's path is clobbered. -/
theorem hash_object_rewrites_existing :
    storeLookup
        (hash_object true [] id
          [(objPath (asciiBytes "e69de29bb2d1d6434b8b29ae775ad8c2e48c5391"), [99])]).2
        (objPath (asciiBytes "e69de29bb2d1d6434b8b29ae775ad8c2e48c5391"))
      ≠ some [99] := by decide

set_option maxRecDepth 100000 in
/-- C4: `ls_tree` applied to a stored blob's fingerprint does not fail with a
`WrongKind` error — no such error exists in the code, which never inspects the
kind tag.  On the blob `"hello"` it panics (unwrap on a missing NUL while
parsing the payload as tree entries), and on the empty blob it succeeds,
listing zero entries. -/
theorem ls_tree_on_blob_no_wrongkind :
    ls_tree some (hash_object true (asciiBytes "hello") id []).2
        (hash_object true (asciiBytes "hello") id []).1 = .panicked ∧
    ls_tree some (hash_object true [] id []).2 (hash_object true [] id []).1
      = .listed [] := by
  constructor <;> decide

/-- C5: malformed framings are not reported as a `MalformedObject` error —
no such error exists in the code.  Framed bytes with no NUL make `cat_file`
fall through silently; an unrecognized kind tag only hits the
unsupported-type print branch; and a tree entry with fewer than 20 bytes
after its NUL makes `ls_tree` panic (modelled as `none`). -/
theorem decode_malformed_no_error :
    catFileDecode [1, 2, 3] = .silent ∧
    catFileDecode (frame "commit" [1, 2, 3]) = .unsupported (asciiBytes "commit") ∧
    lsTreeDecode (frame "tree" (asciiBytes "100644 a" ++ 0 :: [1, 2, 3])) = none := by
  refine ⟨by decide, by decide, by decide⟩

/-- C6: reading an object at a fingerprint with no stored object does not
return a `NotFound` error to the caller: both `cat_file` and `ls_tree` call
`fs::read(path).unwrap()`, which aborts the process. -/
theorem read_missing_panics (dec : List Nat → Option (List Nat)) (store : Store)
    (sha : List Nat) (h : storeLookup store (objPath sha) = none) :
    cat_file dec store sha = .panicked ∧ ls_tree dec store sha = .panicked := by
  simp [cat_file, ls_tree, h]

theorem read_missing_panics_witness :
    cat_file (fun _ => none) []
        (asciiBytes "0000000000000000000000000000000000000000") = .panicked ∧
    ls_tree (fun _ => none) []
        (asciiBytes "0000000000000000000000000000000000000000") = .panicked :=
  read_missing_panics _ _ _ rfl

set_option maxRecDepth 100000 in
/-- C7: building a tree over an empty directory succeeds (absent injected I/O
faults), and always returns the same fixed fingerprint — the SHA-1 of the
framing `"tree 0\x00"`, i.e. 4b825dc642cb6eb9a060e54bf8d69288fbee4904 —
independently of the pre-existing store and of the compression function; the
empty-entry tree object it frames is valid and decodes to zero entries. -/
theorem write_tree_empty_dir_fixed_fingerprint (c : List Nat → List Nat) (s : Store) :
    (write_tree (fun _ => false) c (.dir []) s).map Prod.fst
      = some (asciiBytes "4b825dc642cb6eb9a060e54bf8d69288fbee4904") ∧
    hexEncode (sha1 (encodeTree [])) = asciiBytes "4b825dc642cb6eb9a060e54bf8d69288fbee4904" ∧
    lsTreeDecode (encodeTree []) = some [] := by
  refine ⟨?_, by decide, by decide⟩
  have h4b : hexEncode (sha1 (frame "tree" ([] : List Nat)))
      = asciiBytes "4b825dc642cb6eb9a060e54bf8d69288fbee4904" := by decide
  simp only [write_tree, writeChildren_nil, write_object, h4b]
  by_cases hl :
      (storeLookup s (objPath (asciiBytes "4b825dc642cb6eb9a060e54bf8d69288fbee4904"))).isSome <;>
    simp [hl]

/-- C8: any I/O failure while `write_tree` reads a file or writes an object
aborts the entire build of that subtree: once the children processed so far
have succeeded, a failing file read (`badFile`), a failing blob-object write,
or a failing subdirectory build each make the whole `write_tree` call return
the propagated error (`none`) — no entry is recorded and no partial tree is
produced. -/
theorem write_tree_io_failure_propagates
    (bad : List Nat → Bool) (c : List Nat → List Nat) (pre post : List (String × FsNode))
    (n : String) (s st : Store) (es : List Nat)
    (hg : n ≠ ".git") (hpre : writeChildren bad c pre s = some (es, st)) :
    write_tree bad c (.dir (pre ++ (n, .badFile) :: post)) s = none ∧
    (∀ data, write_object bad c (hexEncode (sha1 (encodeBlob data))) (encodeBlob data) st = none →
        write_tree bad c (.dir (pre ++ (n, .file data) :: post)) s = none) ∧
    (∀ cs, writeChildren bad c cs st = none →
        write_tree bad c (.dir (pre ++ (n, .dir cs) :: post)) s = none) := by
  refine ⟨?_, ?_, ?_⟩
  · simp only [write_tree, writeChildren_append bad c pre ((n, FsNode.badFile) :: post) s,
      hpre, writeChildren_badFile bad c n post st hg]
  · intro data hw
    simp only [write_tree, writeChildren_append bad c pre ((n, FsNode.file data) :: post) s,
      hpre, writeChildren_file_writeFail bad c n data post st hg hw]
  · intro cs hcs
    simp only [write_tree, writeChildren_append bad c pre ((n, FsNode.dir cs) :: post) s,
      hpre, writeChildren_dir_err bad c n cs post st hg hcs]

theorem write_tree_io_failure_propagates_witness :
    write_tree (fun _ => false) id (.dir [("f", FsNode.badFile)]) [] = none :=
  (write_tree_io_failure_propagates (fun _ => false) id [] [] "f" [] [] []
    (by decide) (writeChildren_nil _ _ _)).1

/-- C9: `hash_object` with `write = false` computes and returns the
fingerprint without touching the object store: the store after the call is
the same one passed in. -/
theorem hash_object_no_persist_no_write (d : List Nat) (c : List Nat → List Nat)
    (s : Store) : hash_object false d c s = (hexEncode (sha1 (encodeBlob d)), s) := by
  simp [hash_object]

/-- C10: during tree building, a child that is neither a regular file nor a
directory contributes no entry and causes no error — building the directory
with the `special` child is identical to building it without — and a child
named `.git` is likewise excluded whatever its kind. -/
theorem write_tree_skips_special_children
    (bad : List Nat → Bool) (c : List Nat → List Nat) (pre post : List (String × FsNode))
    (n : String) (s : Store) :
    write_tree bad c (.dir (pre ++ (n, .special) :: post)) s
      = write_tree bad c (.dir (pre ++ post)) s ∧
    (∀ node, write_tree bad c (.dir (pre ++ (".git", node) :: post)) s
      = write_tree bad c (.dir (pre ++ post)) s) := by
  constructor
  · simp only [write_tree, writeChildren_append bad c pre ((n, FsNode.special) :: post) s,
      writeChildren_append bad c pre post s, writeChildren_special]
  · intro node
    simp only [write_tree, writeChildren_append bad c pre ((".git", node) :: post) s,
      writeChildren_append bad c pre post s, writeChildren_git]

end Rit
